import Mathlib

/-!
Verification development for the Jamaican rural road network pathfinding
program (src/AI.py).  The program keeps its data and algorithms in an
embedded Prolog knowledge base (created by
JamaicaRoadNetwork.create_default_network) and drives it from Python.

Modelling conventions:
* Prolog atoms (location names, hazard tags) are strings.
* Distances and times are rationals, so that the travel time formula
  Distance / Speed * 60 is exact.
* The road/5 and road_condition/3 predicates consist of the asserted
  facts plus one symmetry rule each (road(B,A,..) :- road(A,B,..)).
  We embed them by their least Herbrand model: a query solution list is
  the facts matching the queried direction, in assertion order, followed
  by the facts matching the reversed direction, which is the SLD solution
  order (clause order: facts, then the symmetry rule).  The symmetry rule
  calls itself on the swapped goal, which under real SLD resolution makes
  exhaustive enumeration of road/5 loop; the declarative model used here
  is the finite solution set those queries denote.
* The searches are embedded as fueled functions.  dijkstra and bfs_search
  enumerate the full Prolog solution list (the Python side collects every
  solution with list(...)), while dijkstra_time is embedded by its first
  SLD solution.  Fuel exhaustion is distinguished from finite failure.
-/

/-- Locations are Prolog atoms, i.e. plain tokens. -/
abbrev Loc := String

/-- Road surface, the Type argument of road/5: atoms paved / unpaved. -/
inductive Surface where
  | paved
  | unpaved
deriving DecidableEq, Repr

/-- Road status, the Status argument of road/5: atoms open / closed
(opened stands for the atom open, which is a reserved word here). -/
inductive Status where
  | opened
  | closed
deriving DecidableEq, Repr

/-- One asserted road/5 fact: road(a, b, dist, surface, status). -/
structure RoadFact where
  a : Loc
  b : Loc
  dist : ℚ
  surface : Surface
  status : Status
deriving DecidableEq, Repr

/-- One asserted road_condition/3 fact: road_condition(a, b, c). -/
structure CondFact where
  a : Loc
  b : Loc
  c : String
deriving DecidableEq, Repr

/-- The mutable knowledge base: the road/5 facts and the road_condition/3
facts, each in assertion order (assertz appends at the end). -/
structure KB where
  roads : List RoadFact
  conds : List CondFact
deriving DecidableEq, Repr

/-- speed/2: average speed by road type (km/h): speed(paved, 60),
speed(unpaved, 30). -/
def speed : Surface → ℚ
  | Surface.paved => 60
  | Surface.unpaved => 30

/-- First SLD solution of the goal road(a, b, D, T, S): the first fact
asserted in the (a, b) direction, otherwise (via the symmetry rule) the
first fact asserted in the (b, a) direction. -/
def road_first (kb : KB) (a b : Loc) : Option RoadFact :=
  match kb.roads.find? (fun r => decide (r.a = a ∧ r.b = b)) with
  | some r => some r
  | none => kb.roads.find? (fun r => decide (r.a = b ∧ r.b = a))

/-- First SLD solution of the goal road(a, b, D, T, open). -/
def road_first_open (kb : KB) (a b : Loc) : Option RoadFact :=
  match kb.roads.find? (fun r => decide (r.a = a ∧ r.b = b ∧ r.status = Status.opened)) with
  | some r => some r
  | none => kb.roads.find? (fun r => decide (r.a = b ∧ r.b = a ∧ r.status = Status.opened))

/-- Whether road_condition(x, y, c) is derivable (a fact in either
direction, via the road_condition symmetry rule). -/
def cond_holds (kb : KB) (x y : Loc) (c : String) : Bool :=
  kb.conds.any fun f => decide (f.c = c ∧ ((f.a = x ∧ f.b = y) ∨ (f.a = y ∧ f.b = x)))

/-- calculate_distance/2: calculate_distance([_], 0) and
calculate_distance([A,B|Rest], Dist + RestDist) using the first solution
of road(A, B, Dist, _, _) (any status).  The empty list matches no
clause, so it fails. -/
def calculate_distance (kb : KB) : List Loc → Option ℚ
  | [] => none
  | [_] => some 0
  | x :: y :: rest =>
    match road_first kb x y with
    | none => none
    | some r =>
      match calculate_distance kb (y :: rest) with
      | none => none
      | some d => some (r.dist + d)

/-- path_cost/2: the cost of a reversed candidate path is the
calculate_distance of the path read forwards. -/
def path_cost (kb : KB) (p : List Loc) : Option ℚ :=
  calculate_distance kb p.reverse

/-- Stable insertion by a rational key: the inserted element stands for
an earlier list position than the already sorted ones, so it goes after
the elements with a strictly smaller key and before those with an equal
key, matching keysort/2 and sort/4 with order @=<, which are stable and
keep duplicates. -/
def kinsert {α : Type} (key : α → ℚ) (x : α) : List α → List α
  | [] => [x]
  | y :: ys => if key y < key x then y :: kinsert key x ys else x :: y :: ys

/-- Stable sort by a rational key (insertion sort). -/
def ksort {α : Type} (key : α → ℚ) : List α → List α
  | [] => []
  | x :: xs => kinsert key x (ksort key xs)

/-- sort_paths/2: pair every candidate with path_cost, keysort by the
cost, and drop the keys.  map_list_to_pairs fails as soon as path_cost
fails for one candidate, which makes the whole sort fail. -/
def sort_paths (kb : KB) (ps : List (List Loc)) : Option (List (List Loc)) :=
  match ps.mapM (fun p => (path_cost kb p).map (fun c => (p, c))) with
  | none => none
  | some paired => some ((ksort (fun pc => pc.2) paired).map (fun pc => pc.1))

/-- The solutions (Next, fact) of the goal road(x, Next, _, _, open) in
SLD order: facts asserted with first argument x, then, via the symmetry
rule, facts asserted with second argument x. -/
def open_neighbor_facts (kb : KB) (x : Loc) : List (Loc × RoadFact) :=
  ((kb.roads.filter (fun r => decide (r.a = x ∧ r.status = Status.opened))).map
    (fun r => (r.b, r))) ++
  ((kb.roads.filter (fun r => decide (r.b = x ∧ r.status = Status.opened))).map
    (fun r => (r.a, r)))

/-- The solutions Next of road(x, Next, _, _, open) in SLD order. -/
def open_neighbors (kb : KB) (x : Loc) : List Loc :=
  (open_neighbor_facts kb x).map (fun p => p.1)

/-- The solutions Next of road(x, Next, _, paved, open) in SLD order
(the extension goal of paved_dijkstra). -/
def paved_neighbors (kb : KB) (x : Loc) : List Loc :=
  ((kb.roads.filter (fun r =>
      decide (r.a = x ∧ r.surface = Surface.paved ∧ r.status = Status.opened))).map
    (fun r => r.b)) ++
  ((kb.roads.filter (fun r =>
      decide (r.b = x ∧ r.surface = Surface.paved ∧ r.status = Status.opened))).map
    (fun r => r.a))

/-- The solutions Next of road(x, Next, _, _, open),
\+ road_condition(x, Next, c) in SLD order (the extension goal of
safe_dijkstra). -/
def safe_neighbors (kb : KB) (c : String) (x : Loc) : List Loc :=
  (open_neighbors kb x).filter (fun y => ! cond_holds kb x y c)

/-- travel_time/3: Time is Distance / Speed * 60 for the first solution
of road(x, y, Distance, Type, open). -/
def travel_time (kb : KB) (x y : Loc) : Option ℚ :=
  (road_first_open kb x y).map (fun r => r.dist / speed r.surface * 60)

/-- All solutions (Next, Time) of travel_time(x, Next, Time) in SLD
order, as collected by the findall of dijkstra_time. -/
def time_neighbors (kb : KB) (x : Loc) : List (Loc × ℚ) :=
  (open_neighbor_facts kb x).map (fun p => (p.1, p.2.dist / speed p.2.surface * 60))

/-- The full Prolog solution list of dijkstra/4 (and of paved_dijkstra
and safe_dijkstra, which differ only in the extension goal, supplied
here as nbrs), on a frontier of reversed candidate paths.

Clause 1 yields a solution whenever the head candidate starts with End
and calculate_distance succeeds on it; on backtracking clause 2 expands
the head candidate regardless.  The expansion builds each extension as
[Next, Node | Current] where Current itself already starts with Node, so
the expanded node is recorded twice; findall keeps the SLD solution
order of the extension goal.  The new frontier is
sort_paths(Queue ++ Extensions); when sort_paths fails (some candidate
has no computable cost) clause 2 fails and contributes no solutions.
Returns none when the fuel runs out before the search tree is
exhausted. -/
def ucs_solutions (nbrs : KB → Loc → List Loc) :
    Nat → KB → List (List Loc) → Loc → Option (List (List Loc × ℚ))
  | 0, _, _, _ => none
  | _ + 1, _, [], _ => some []
  | _ + 1, _, [] :: _, _ => some []
  | n + 1, kb, (x :: p) :: q, e =>
    let cur := x :: p
    let sol1 : List (List Loc × ℚ) :=
      if x = e then
        match calculate_distance kb cur.reverse with
        | some d => [(cur.reverse, d)]
        | none => []
      else []
    let exts := ((nbrs kb x).filter (fun y => decide (y ∉ cur))).map
      (fun y => y :: x :: cur)
    match sort_paths kb (q ++ exts) with
    | none => some sol1
    | some sq =>
      match ucs_solutions nbrs n kb sq e with
      | none => none
      | some rest => some (sol1 ++ rest)

/-- dijkstra/4: uniform-cost frontier search over open roads. -/
def dijkstra : Nat → KB → List (List Loc) → Loc → Option (List (List Loc × ℚ)) :=
  ucs_solutions open_neighbors

/-- paved_dijkstra/4: the same search restricted to paved open roads. -/
def paved_dijkstra : Nat → KB → List (List Loc) → Loc → Option (List (List Loc × ℚ)) :=
  ucs_solutions paved_neighbors

/-- safe_dijkstra/5: the same search avoiding roads tagged with the
given condition. -/
def safe_dijkstra (c : String) :
    Nat → KB → List (List Loc) → Loc → Option (List (List Loc × ℚ)) :=
  ucs_solutions (fun kb => safe_neighbors kb c)

/-- shortest_path/4: dijkstra from the frontier [[Start]]. -/
def shortest_path (fuel : Nat) (kb : KB) (a e : Loc) : Option (List (List Loc × ℚ)) :=
  dijkstra fuel kb [[a]] e

/-- The Python min(results, key=...) call: the element with the smallest
key, the earliest one winning ties; none on an empty list. -/
def py_min {α : Type} : List (α × ℚ) → Option (α × ℚ)
  | [] => none
  | x :: xs => some (xs.foldl (fun acc y => if y.2 < acc.2 then y else acc) x)

/-- JamaicaRoadNetwork.find_path with criteria shortest: collect every
solution of shortest_path and keep the one with the minimum Distance
(Python min keeps the first among equals); None when there are no
results. -/
def find_path_shortest (fuel : Nat) (kb : KB) (a e : Loc) : Option (List Loc × ℚ) :=
  match shortest_path fuel kb a e with
  | none => none
  | some sols => py_min sols

/-- Outcome of a fueled first-solution search: a found path with its
accumulated value, finite failure, or fuel exhaustion. -/
inductive TimeResult where
  | found (path : List Loc) (time : ℚ)
  | noPath
  | out
deriving DecidableEq, Repr

/-- dijkstra_time/4, by its first SLD solution.  The frontier holds
(Node, AccumulatedTime) pairs; there is no cycle prevention of any kind.
Clause 1 succeeds when the head pair carries End.  Clause 2 expands the
head node through travel_time (open roads only), appends the extensions,
sorts the frontier by accumulated time with sort(2, @=<, ...) (stable,
duplicates kept), and recurses on the sorted frontier.  Every solution
of the recursive call is a path starting at the head node of the sorted
frontier, and that head is also the first member/2 candidate, so the
trailing member and RestPath = [Next|_] goals accept the first recursive
solution; the first overall solution therefore prepends Node to the
first recursive solution, with TotalTime equal to the recursive time. -/
def dijkstra_time : Nat → KB → List (Loc × ℚ) → Loc → TimeResult
  | 0, _, _, _ => TimeResult.out
  | _ + 1, _, [], _ => TimeResult.noPath
  | n + 1, kb, (x, t) :: q, e =>
    if x = e then TimeResult.found [e] t
    else
      let exts := (time_neighbors kb x).map (fun nt => (nt.1, t + nt.2))
      let sq := ksort (fun nt => nt.2) (q ++ exts)
      match dijkstra_time n kb sq e with
      | TimeResult.found rest rt => TimeResult.found (x :: rest) rt
      | r => r

/-- fastest_path/4: dijkstra_time from the frontier [[Start, 0]]. -/
def fastest_path (fuel : Nat) (kb : KB) (a e : Loc) : TimeResult :=
  dijkstra_time fuel kb [(a, 0)] e

/-- The findall of bfs_search clause 2: every extension [Next, Node |
Path] of the head candidate [Node | Path] with road(Node, Next, _, _,
open) and Next not yet in [Node | Path] (a correct simple-path
extension, unlike the one of dijkstra), in SLD order. -/
def bfs_exts (kb : KB) (x : Loc) (p : List Loc) : List (List Loc) :=
  ((open_neighbors kb x).filter (fun y => decide (y ∉ x :: p))).map
    (fun y => y :: x :: p)

/-- The full Prolog solution list of bfs_search/3 on a FIFO frontier of
reversed candidate paths.  Clause 1 yields the reversed head candidate
whenever it starts with End; on backtracking clause 2 expands the head
through bfs_exts and appends the extensions at the back of the
frontier. -/
def bfs_search : Nat → KB → List (List Loc) → Loc → Option (List (List Loc))
  | 0, _, _, _ => none
  | _ + 1, _, [], _ => some []
  | _ + 1, _, [] :: _, _ => some []
  | n + 1, kb, (x :: p) :: q, e =>
    match bfs_search n kb (q ++ bfs_exts kb x p) e with
    | none => none
    | some rest =>
      if x = e then some ((x :: p).reverse :: rest) else some rest

/-- bfs_path/3: bfs_search from the frontier [[Start]]. -/
def bfs_path (fuel : Nat) (kb : KB) (a e : Loc) : Option (List (List Loc)) :=
  bfs_search fuel kb [[a]] e

/-- The connected/5 predicate queried by the Python helpers
_calculate_distance and _calculate_time.  The knowledge base written by
create_default_network defines no connected clause at all, so the goal
denotes the empty relation and every connected query fails (under the
default SWI unknown-procedure flag the call instead raises an existence
error, which find_path turns into a None result; either way no segment
data is ever obtained from it). -/
def connected (_ : KB) (_ _ : Loc) : Option RoadFact :=
  none

/-- JamaicaRoadNetwork._calculate_distance: sum the D of
connected(path[i], path[i+1], D, _, _) over consecutive pairs, a pair
with no solution contributing nothing. -/
def calculate_distance_py (kb : KB) : List Loc → ℚ
  | [] => 0
  | [_] => 0
  | x :: y :: rest =>
    (match connected kb x y with
     | some r => r.dist
     | none => 0) + calculate_distance_py kb (y :: rest)

/-- JamaicaRoadNetwork._calculate_time: sum travel_time over consecutive
pairs, falling back to connected (which always fails) and otherwise
contributing nothing. -/
def calculate_time_py (kb : KB) : List Loc → ℚ
  | [] => 0
  | [_] => 0
  | x :: y :: rest =>
    (match travel_time kb x y with
     | some t => t
     | none =>
       match connected kb x y with
       | some r => r.dist / speed r.surface * 60
       | none => 0) + calculate_time_py kb (y :: rest)

/-- JamaicaRoadNetwork.find_path with criteria bfs: take the first
solution of bfs_path and report it with the recomputed distance and
time. -/
def find_path_bfs (fuel : Nat) (kb : KB) (a e : Loc) : Option (List Loc × ℚ × ℚ) :=
  match bfs_path fuel kb a e with
  | none => none
  | some [] => none
  | some (p :: _) => some (p, calculate_distance_py kb p, calculate_time_py kb p)

/-- JamaicaRoadNetwork.add_road: assertz a new road/5 fact (appended at
the end of the database); no validation of any argument, the call always
reports success. -/
def add_road (kb : KB) (a b : Loc) (d : ℚ) (t : Surface) (s : Status) : KB :=
  ⟨kb.roads ++ [⟨a, b, d, t, s⟩], kb.conds⟩

/-- RoadNetworkGUI.add_road, the interface handler: it rejects a
non-positive distance before ever calling the backend (the store is then
untouched), and otherwise delegates to JamaicaRoadNetwork.add_road. -/
def gui_add_road (kb : KB) (a b : Loc) (d : ℚ) (t : Surface) (s : Status) : Option KB :=
  if d ≤ 0 then none else some (add_road kb a b d t s)

/-- JamaicaRoadNetwork.add_road_condition: assertz a new
road_condition/3 fact; no existence check on the road and no duplicate
check, the call always reports success. -/
def add_road_condition (kb : KB) (a b : Loc) (c : String) : KB :=
  ⟨kb.roads, kb.conds ++ [⟨a, b, c⟩]⟩

/-- retract(road(a, b, d, t, _)): remove the first asserted fact in the
(a, b) direction with distance d and surface t; if none matches, the
retract goal just fails and the database is unchanged (the symmetry rule
is not a fact and is never retracted by this goal). -/
def retract_road (roads : List RoadFact) (a b : Loc) (d : ℚ) (t : Surface) :
    List RoadFact :=
  match roads with
  | [] => []
  | r :: rest =>
    if r.a = a ∧ r.b = b ∧ r.dist = d ∧ r.surface = t then rest
    else r :: retract_road rest a b d t

/-- JamaicaRoadNetwork.update_road_status: query road(a, b, D, T, _) and
fail (return False) when it has no solution; otherwise take D, T from
the first solution, retract the first matching (a, b)-direction fact
(silently a no-op when the found fact was stored in the (b, a)
direction), and assertz road(a, b, D, T, newStatus). -/
def update_road_status (kb : KB) (a b : Loc) (s : Status) : Option KB :=
  match road_first kb a b with
  | none => none
  | some r =>
    some ⟨retract_road kb.roads a b r.dist r.surface ++ [⟨a, b, r.dist, r.surface, s⟩],
          kb.conds⟩

/-- There is an open road between x and y (a road/5 fact with status
open in either stored direction). -/
def OpenRoad (kb : KB) (x y : Loc) : Prop :=
  ∃ r ∈ kb.roads, r.status = Status.opened ∧
    ((r.a = x ∧ r.b = y) ∨ (r.b = x ∧ r.a = y))

instance (kb : KB) (x y : Loc) : Decidable (OpenRoad kb x y) := by
  unfold OpenRoad
  infer_instance

/-- An admissible path for the searches: it runs from a to e over open
roads and repeats no location. -/
def AdmissiblePath (kb : KB) (a e : Loc) (p : List Loc) : Prop :=
  p.head? = some a ∧ p.getLast? = some e ∧ p.Chain' (OpenRoad kb) ∧ p.Nodup

/-- A frontier element of bfs_search: a reversed, duplicate-free open
chain whose far end is the start location. -/
def FrontierPath (kb : KB) (a : Loc) (r : List Loc) : Prop :=
  r ≠ [] ∧ r.getLast? = some a ∧ r.Chain' (OpenRoad kb) ∧ r.Nodup

/-- Structural invariant of the bfs_search frontier: every element is a
frontier path, lengths are pairwise nondecreasing along the frontier,
and no element is more than one longer than the frontier head. -/
def QueueInv (kb : KB) (a : Loc) (queue : List (List Loc)) : Prop :=
  (∀ r ∈ queue, FrontierPath kb a r) ∧
  queue.Pairwise (fun r s => r.length ≤ s.length) ∧
  (∀ r ∈ queue, ∀ h ∈ queue.head?, r.length ≤ h.length + 1)

/-- Completeness invariant of the bfs_search frontier relative to the
goal e: every admissible path has some frontier element as a reversed
prefix. -/
def Covers (kb : KB) (a e : Loc) (queue : List (List Loc)) : Prop :=
  ∀ P, AdmissiblePath kb a e P → ∃ r ∈ queue, r.reverse <+: P

/-- The network of spec example scenarios 1 and 2:
road(a,b,10,paved,open) and road(b,c,5,unpaved,open). -/
def kbS1 : KB :=
  ⟨[⟨"a", "b", 10, Surface.paved, Status.opened⟩,
    ⟨"b", "c", 5, Surface.unpaved, Status.opened⟩], []⟩

/-- A single open road between a and b (with the symmetry rule this is
already a cyclic network: a-b-a-b-... is an unbounded walk). -/
def kbAB : KB :=
  ⟨[⟨"a", "b", 10, Surface.paved, Status.opened⟩], []⟩

/-- An open road from a to b next to a closed self-loop at a.  The
self-loop gives the duplicated node pairs of dijkstra candidates a
computable cost, so the shortest-criterion search can complete. -/
def kbLoop : KB :=
  ⟨[⟨"a", "b", 2, Surface.paved, Status.opened⟩,
    ⟨"a", "a", 1, Surface.paved, Status.closed⟩], []⟩

/-- The empty knowledge base. -/
def kbEmpty : KB := ⟨[], []⟩

/-- Store built by add_road(p,q,7,paved,open) then add_road(q,p,9,unpaved,closed). -/
def kbC5 : KB :=
  add_road (add_road kbEmpty "p" "q" 7 Surface.paved Status.opened)
    "q" "p" 9 Surface.unpaved Status.closed

/-- A store holding the single fact road(a,b,5,paved,open). -/
def kbC6 : KB := ⟨[⟨"a", "b", 5, Surface.paved, Status.opened⟩], []⟩

/-- Store built by add_road_condition(x,y,deep_potholes) on the empty store. -/
def kbC8 : KB := add_road_condition kbEmpty "x" "y" "deep_potholes"

/-- Store built by two add_road calls for the same pair with different
attributes. -/
def kbC9 : KB :=
  add_road (add_road kbEmpty "a" "b" 10 Surface.paved Status.opened)
    "a" "b" 7 Surface.unpaved Status.opened

/-- The dijkstra_time step on the one-road network kbAB: expanding a at
accumulated time t yields the single frontier entry (b, t + 10), and
symmetrically for b.  The road is open in both directions (symmetry
rule), so the frontier never empties and the goal c is never reached. -/
theorem dijkstra_time_kbAB_step_a (n : Nat) (t : ℚ) :
    dijkstra_time (n + 1) kbAB [("a", t)] "c" =
      match dijkstra_time n kbAB [("b", t + 10 / 60 * 60)] "c" with
      | TimeResult.found r rt => TimeResult.found ("a" :: r) rt
      | r => r := rfl

theorem dijkstra_time_kbAB_step_b (n : Nat) (t : ℚ) :
    dijkstra_time (n + 1) kbAB [("b", t)] "c" =
      match dijkstra_time n kbAB [("a", t + 10 / 60 * 60)] "c" with
      | TimeResult.found r rt => TimeResult.found ("b" :: r) rt
      | r => r := rfl

/-- On kbAB the first-solution search for a path to the absent location
c never finishes: whatever the fuel, it is exhausted with the frontier
still alternating between a and b. -/
theorem dijkstra_time_kbAB_out (n : Nat) :
    ∀ t : ℚ, dijkstra_time n kbAB [("a", t)] "c" = TimeResult.out ∧
      dijkstra_time n kbAB [("b", t)] "c" = TimeResult.out := by
  induction n with
  | zero => exact fun t => ⟨rfl, rfl⟩
  | succ n ih =>
    intro t
    constructor
    · rw [dijkstra_time_kbAB_step_a n t, (ih (t + 10 / 60 * 60)).2]
    · rw [dijkstra_time_kbAB_step_b n t, (ih (t + 10 / 60 * 60)).1]

/-- C2: the claim states that every findPath call terminates, in
particular that dijkstra_time terminates on every finite network.  It
does not: on the one-road network kbAB (cyclic, as every road is
traversable in both directions) the query fastest_path(a, c, Path,
Time) never terminates, because dijkstra_time has no cycle prevention
and the frontier never empties.  In the fueled embedding, every fuel
bound is exhausted without the search either finding a path or failing
finitely. -/
theorem c2_dijkstra_time_never_terminates (n : Nat) :
    fastest_path n kbAB "a" "c" = TimeResult.out :=
  (dijkstra_time_kbAB_out n 0).1

/-- C1: on the network of spec scenario 1 (road(a,b,10,paved,open),
road(b,c,5,unpaved,open)) the shortest-criterion findPath(a, c) returns
no path at all, for every fuel bound: dijkstra builds every extension as
[Next, Node | Current] with Current already starting at Node, so each
candidate duplicates the expanded node, path_cost then needs a road(X,
X) fact, sort_paths fails, and the query finitely fails with zero
solutions (the spec instead promises the optimal path [a,b,c]). -/
theorem c1_shortest_returns_no_path (n : Nat) :
    find_path_shortest n kbS1 "a" "c" = none := by
  cases n with
  | zero => rfl
  | succ n => rfl

/-- C3: a returned path can traverse a closed road.  On kbLoop (open
road a-b next to a closed self-loop at a) the shortest-criterion search
returns the sequence [a, a, b] with distance 3: the duplicated node pair
(a, a) is costed through the closed self-loop fact, so the returned
"path" both repeats a location and traverses a road whose status is
closed. -/
theorem c3_returned_path_uses_closed_road :
    find_path_shortest 5 kbLoop "a" "b" = some (["a", "a", "b"], 1 + (2 + 0)) ∧
    ((1 : ℚ) + (2 + 0) = 3) ∧
    (road_first kbLoop "a" "a").map RoadFact.status = some Status.closed ∧
    ¬ (["a", "a", "b"] : List Loc).Nodup := by
  refine ⟨rfl, by norm_num, rfl, by decide⟩

/-- C4: on the scenario network the fastest-criterion first solution is
indeed the path [a,b,c] with accumulated time 20, but the reported
distance is recomputed by _calculate_distance through the connected/5
predicate, which the knowledge base never defines; every segment lookup
fails and the reported distance is 0, not the claimed 15 km, even though
the road facts themselves support 15 (calculate_distance/2 on road/5
returns 15).  Moreover the Python side collects all solutions of
fastest_path, and that enumeration never terminates on this cyclic
network. -/
theorem c4_fastest_reports_zero_distance :
    calculate_distance_py kbS1 ["a", "b", "c"] = 0 ∧
    calculate_distance kbS1 ["a", "b", "c"] = some 15 := by
  constructor
  · show (0 : ℚ) + (0 + 0) = 0
    norm_num
  · show some ((10 : ℚ) + (5 + 0)) = some 15
    norm_num

/-- C5: the store can hold two independently mutable directed records
for the same unordered pair.  After add_road(p,q,7,paved,open) and
add_road(q,p,9,unpaved,closed) the two traversal directions report
different distances, surfaces and statuses. -/
theorem c5_directed_records_diverge :
    kbC5.roads.length = 2 ∧
    road_first kbC5 "p" "q" = some ⟨"p", "q", 7, Surface.paved, Status.opened⟩ ∧
    road_first kbC5 "q" "p" = some ⟨"q", "p", 9, Surface.unpaved, Status.closed⟩ := by
  refine ⟨rfl, rfl, rfl⟩

/-- C6: update_road_status(b, a, closed) on a store holding only
road(a,b,5,paved,open) reports success, but the road between a and b
does not atomically get status closed: the retract targets the (b, a)
direction, silently fails, and the store ends up with the old open
(a, b) fact next to a new closed (b, a) fact, so the a-to-b lookup still
reports open. -/
theorem c6_reverse_update_leaves_stale_status :
    (update_road_status kbC6 "b" "a" Status.closed).map
        (fun kb => ((road_first kb "a" "b").map RoadFact.status,
                    (road_first kb "b" "a").map RoadFact.status))
      = some (some Status.opened, some Status.closed) := by
  rfl

/-- C7 counterexample: JamaicaRoadNetwork.add_road performs no distance
validation: called with distance 0 it still inserts the fact, so the
store is changed and now violates the no-nonpositive-distance
invariant. -/
theorem c7_add_road_accepts_zero_distance :
    (add_road kbEmpty "a" "b" 0 Surface.paved Status.opened).roads
        = [⟨"a", "b", 0, Surface.paved, Status.opened⟩] ∧
    ¬ (∀ r ∈ (add_road kbEmpty "a" "b" 0 Surface.paved Status.opened).roads,
        0 < r.dist) := by
  refine ⟨rfl, by decide⟩

/-- C7 amended: the backend add_road always appends the fact as given,
for any distance; the distance check lives in the GUI handler
(RoadNetworkGUI.add_road), which rejects a non-positive distance before
the backend is reached, leaving the store unchanged. -/
theorem c7_amended_gui_guard (kb : KB) (a b : Loc) (d : ℚ) (t : Surface) (s : Status)
    (h : d ≤ 0) :
    gui_add_road kb a b d t s = none ∧
    (add_road kb a b d t s).roads = kb.roads ++ [⟨a, b, d, t, s⟩] := by
  refine ⟨?_, rfl⟩
  unfold gui_add_road
  simp [h]

theorem c7_amended_gui_guard_witness :
    gui_add_road kbEmpty "a" "b" 0 Surface.paved Status.opened = none ∧
    (add_road kbEmpty "a" "b" 0 Surface.paved Status.opened).roads
      = kbEmpty.roads ++ [⟨"a", "b", 0, Surface.paved, Status.opened⟩] :=
  c7_amended_gui_guard kbEmpty "a" "b" 0 Surface.paved Status.opened (by norm_num)

/-- C8 counterexample: add_road_condition succeeds on the empty store,
where no road exists between x and y, and re-adding the same tag stores
it twice. -/
theorem c8_condition_added_without_road :
    kbEmpty.roads = [] ∧
    kbC8.conds = [⟨"x", "y", "deep_potholes"⟩] ∧
    (add_road_condition kbC8 "x" "y" "deep_potholes").conds
      = [⟨"x", "y", "deep_potholes"⟩, ⟨"x", "y", "deep_potholes"⟩] := by
  refine ⟨rfl, rfl, rfl⟩

/-- C8 amended: add_road_condition never fails and never checks
anything: it unconditionally appends the condition fact (even when no
road exists, and even when the tag is already present, which stores a
duplicate fact), and leaves the roads untouched. -/
theorem c8_amended_unconditional_insert (kb : KB) (a b : Loc) (c : String) :
    (add_road_condition kb a b c).conds = kb.conds ++ [⟨a, b, c⟩] ∧
    (add_road_condition kb a b c).roads = kb.roads := by
  exact ⟨rfl, rfl⟩

/-- C9 counterexample: after two add_road calls for the pair (a, b) with
different attributes the store holds two records, and the first SLD
solution of a road(a, b, ...) lookup carries the FIRST call attributes
(distance 10, paved), not the second ones. -/
theorem c9_second_add_does_not_overwrite :
    kbC9.roads.length = 2 ∧
    road_first kbC9 "a" "b" = some ⟨"a", "b", 10, Surface.paved, Status.opened⟩ := by
  refine ⟨rfl, rfl⟩

/-- find? skips a leading block on which the predicate is false. -/
theorem find?_append_of_none {α : Type} (p : α → Bool) (l₁ l₂ : List α)
    (h : ∀ x ∈ l₁, p x = false) :
    (l₁ ++ l₂).find? p = l₂.find? p := by
  induction l₁ with
  | nil => rfl
  | cons x xs ih =>
    have hx := h x (by simp)
    simp only [List.cons_append, List.find?]
    rw [hx]
    exact ih (fun y hy => h y (by simp [hy]))

/-- C9 amended: a second add_road for the same pair appends a second
directed record instead of overwriting; when the store held no record
for the pair before, the first-solution lookup afterwards reports the
first call attributes, while both records remain in the store. -/
theorem c9_amended_append_first_wins (kb : KB) (a b : Loc) (d₁ d₂ : ℚ)
    (t₁ t₂ : Surface) (s₁ s₂ : Status)
    (h : ∀ r ∈ kb.roads, ¬ (r.a = a ∧ r.b = b)) :
    (add_road (add_road kb a b d₁ t₁ s₁) a b d₂ t₂ s₂).roads
        = kb.roads ++ [⟨a, b, d₁, t₁, s₁⟩, ⟨a, b, d₂, t₂, s₂⟩] ∧
    road_first (add_road (add_road kb a b d₁ t₁ s₁) a b d₂ t₂ s₂) a b
        = some ⟨a, b, d₁, t₁, s₁⟩ := by
  have hroads : (add_road (add_road kb a b d₁ t₁ s₁) a b d₂ t₂ s₂).roads
      = kb.roads ++ [⟨a, b, d₁, t₁, s₁⟩, ⟨a, b, d₂, t₂, s₂⟩] := by
    simp [add_road]
  refine ⟨hroads, ?_⟩
  unfold road_first
  rw [hroads]
  rw [find?_append_of_none _ kb.roads _ (fun r hr => by
    simp only [decide_eq_false_iff_not]
    exact h r hr)]
  simp [List.find?]

theorem c9_amended_append_first_wins_witness :
    (add_road (add_road kbEmpty "a" "b" 10 Surface.paved Status.opened)
        "a" "b" 7 Surface.unpaved Status.opened).roads
      = kbEmpty.roads ++ [⟨"a", "b", 10, Surface.paved, Status.opened⟩,
          ⟨"a", "b", 7, Surface.unpaved, Status.opened⟩] ∧
    road_first (add_road (add_road kbEmpty "a" "b" 10 Surface.paved Status.opened)
        "a" "b" 7 Surface.unpaved Status.opened) "a" "b"
      = some ⟨"a", "b", 10, Surface.paved, Status.opened⟩ :=
  c9_amended_append_first_wins kbEmpty "a" "b" 10 7 Surface.paved Surface.unpaved
    Status.opened Status.opened (by simp [kbEmpty])

/-- OpenRoad is symmetric: the embedded road relation covers both stored
directions. -/
theorem open_road_symm {kb : KB} {x y : Loc} (h : OpenRoad kb x y) : OpenRoad kb y x := by
  obtain ⟨r, hr, hst, hd⟩ := h
  rcases hd with ⟨h1, h2⟩ | ⟨h1, h2⟩
  · exact ⟨r, hr, hst, Or.inr ⟨h2, h1⟩⟩
  · exact ⟨r, hr, hst, Or.inl ⟨h2, h1⟩⟩

/-- The neighbour list computed for the searches is exactly the open
road relation. -/
theorem mem_open_neighbors {kb : KB} {x y : Loc} :
    y ∈ open_neighbors kb x ↔ OpenRoad kb x y := by
  simp only [open_neighbors, open_neighbor_facts, OpenRoad, List.map_append, List.map_map,
    List.mem_append, List.mem_map, Function.comp, List.mem_filter, decide_eq_true_eq]
  constructor
  · rintro (⟨r, ⟨hr, hax, hst⟩, hy⟩ | ⟨r, ⟨hr, hbx, hst⟩, hy⟩)
    · exact ⟨r, hr, hst, Or.inl ⟨hax, hy⟩⟩
    · exact ⟨r, hr, hst, Or.inr ⟨hbx, hy⟩⟩
  · rintro ⟨r, hr, hst, ⟨hax, hby⟩ | ⟨hbx, hay⟩⟩
    · exact Or.inl ⟨r, ⟨hr, hax, hst⟩, hby⟩
    · exact Or.inr ⟨r, ⟨hr, hbx, hst⟩, hay⟩

/-- Membership in the bfs extension list. -/
theorem mem_bfs_exts {kb : KB} {x : Loc} {p : List Loc} {r : List Loc} :
    r ∈ bfs_exts kb x p ↔ ∃ y, OpenRoad kb x y ∧ y ∉ x :: p ∧ r = y :: x :: p := by
  simp only [bfs_exts, List.mem_map, List.mem_filter, decide_eq_true_eq]
  constructor
  · rintro ⟨y, ⟨hy, hnm⟩, rfl⟩
    exact ⟨y, mem_open_neighbors.mp hy, hnm, rfl⟩
  · rintro ⟨y, hy, hnm, rfl⟩
    exact ⟨y, ⟨mem_open_neighbors.mpr hy, hnm⟩, rfl⟩

/-- A total relation on the members of a list is pairwise. -/
theorem pairwise_of_all {α : Type} {R : α → α → Prop} :
    ∀ l : List α, (∀ a ∈ l, ∀ b ∈ l, R a b) → l.Pairwise R
  | [], _ => List.Pairwise.nil
  | x :: xs, h =>
    List.Pairwise.cons (fun b hb => h x (by simp) b (by simp [hb]))
      (pairwise_of_all xs (fun a ha b hb => h a (by simp [ha]) b (by simp [hb])))

/-- A reversed frontier path whose near end is the goal is an admissible
path once read forwards. -/
theorem frontier_reverse_admissible {kb : KB} {a e : Loc} {r : List Loc}
    (h : FrontierPath kb a r) (he : r.head? = some e) :
    AdmissiblePath kb a e r.reverse := by
  obtain ⟨hne, hlast, hchain, hnd⟩ := h
  refine ⟨?_, ?_, ?_, ?_⟩
  · rw [List.head?_reverse]
    exact hlast
  · rw [List.getLast?_reverse]
    exact he
  · rw [List.chain'_reverse]
    exact hchain.imp (fun u v huv => open_road_symm huv)
  · exact List.nodup_reverse.mpr hnd

/-- A proper prefix of a list extends by one more element. -/
theorem prefix_extend {α : Type} {l P : List α} (h : l <+: P) (hne : l ≠ P) :
    ∃ y, l ++ [y] <+: P := by
  obtain ⟨t, ht⟩ := h
  match t, ht with
  | [], ht => exact absurd (by rw [← ht]; simp) hne
  | y :: t, ht => exact ⟨y, t, by rw [← ht]; simp⟩

/-- One expansion step of bfs_search preserves the frontier invariants:
popping a non-goal head and appending its extensions keeps every element
a frontier path, keeps the lengths nondecreasing and within one of the
head, and keeps every admissible path covered by a frontier prefix. -/
theorem bfs_step_preserves (kb : KB) (a e x : Loc) (p : List Loc) (q : List (List Loc))
    (hInv : QueueInv kb a ((x :: p) :: q)) (hCov : Covers kb a e ((x :: p) :: q))
    (hx : x ≠ e) :
    QueueInv kb a (q ++ bfs_exts kb x p) ∧ Covers kb a e (q ++ bfs_exts kb x p) := by
  obtain ⟨hFr, hPw, hBd⟩ := hInv
  have hFrHead : FrontierPath kb a (x :: p) := hFr _ (by simp)
  have hHeadLen : ∀ r ∈ q, (x :: p).length ≤ r.length := (List.pairwise_cons.mp hPw).1
  have hwq : List.Pairwise (fun r s => r.length ≤ s.length) q := (List.pairwise_cons.mp hPw).2
  have hBdq : ∀ r ∈ q, r.length ≤ (x :: p).length + 1 := by
    intro r hr
    exact hBd r (by simp [hr]) (x :: p) (by simp)
  have hExtLen : ∀ r ∈ bfs_exts kb x p, r.length = (x :: p).length + 1 := by
    intro r hr
    obtain ⟨y, -, -, rfl⟩ := mem_bfs_exts.mp hr
    simp
  have hExtFr : ∀ r ∈ bfs_exts kb x p, FrontierPath kb a r := by
    intro r hr
    obtain ⟨y, hopen, hnm, rfl⟩ := mem_bfs_exts.mp hr
    obtain ⟨hne, hlast, hchain, hnd⟩ := hFrHead
    refine ⟨by simp, ?_, ?_, ?_⟩
    · rw [List.getLast?_cons_cons]
      exact hlast
    · rw [List.chain'_cons]
      exact ⟨open_road_symm hopen, hchain⟩
    · exact List.nodup_cons.mpr ⟨hnm, hnd⟩
  refine ⟨⟨?_, ?_, ?_⟩, ?_⟩
  · intro r hr
    rcases List.mem_append.mp hr with h | h
    · exact hFr r (by simp [h])
    · exact hExtFr r h
  · rw [List.pairwise_append]
    refine ⟨hwq, ?_, ?_⟩
    · exact pairwise_of_all _ (fun r hr s hs => by rw [hExtLen r hr, hExtLen s hs])
    · intro r hr s hs
      calc r.length ≤ (x :: p).length + 1 := hBdq r hr
        _ = s.length := (hExtLen s hs).symm
  · intro r hr h hh
    cases q with
    | nil =>
      simp only [List.nil_append] at hr hh
      have hhm : h ∈ bfs_exts kb x p := List.mem_of_mem_head? hh
      rw [hExtLen r hr, hExtLen h hhm]
      exact Nat.le_succ _
    | cons q0 qrest =>
      have hh0 : h = q0 := by
        rw [List.cons_append, List.head?_cons, Option.mem_def, Option.some.injEq] at hh
        exact hh.symm
      subst hh0
      have hq0 : (x :: p).length ≤ h.length := hHeadLen h (by simp)
      rcases List.mem_append.mp hr with hrq | hre
      · calc r.length ≤ (x :: p).length + 1 := hBdq r hrq
          _ ≤ h.length + 1 := Nat.succ_le_succ hq0
      · calc r.length = (x :: p).length + 1 := hExtLen r hre
          _ ≤ h.length + 1 := Nat.succ_le_succ hq0
  · intro P hP
    obtain ⟨r0, hr0, hpre⟩ := hCov P hP
    rcases List.mem_cons.mp hr0 with rfl | h
    · have hne : (x :: p).reverse ≠ P := by
        intro hEq
        have hlastP := hP.2.1
        rw [← hEq, List.getLast?_reverse, List.head?_cons, Option.some.injEq] at hlastP
        exact hx hlastP
      obtain ⟨y, hyp⟩ := prefix_extend hpre hne
      obtain ⟨t, ht⟩ := hyp
      have hchainP := hP.2.2.1
      have hndP := hP.2.2.2
      rw [← ht, List.append_assoc] at hchainP hndP
      have hopen : OpenRoad kb x y := by
        refine (List.chain'_append.mp hchainP).2.2 x ?_ y ?_
        · rw [Option.mem_def, List.getLast?_reverse, List.head?_cons]
        · rw [Option.mem_def]
          rfl
      have hnm : y ∉ x :: p := by
        intro hy
        have hdisj := (List.nodup_append.mp hndP).2.2
        exact hdisj (List.mem_reverse.mpr hy) (by simp)
      refine ⟨y :: x :: p, ?_, ?_⟩
      · exact List.mem_append.mpr (Or.inr (mem_bfs_exts.mpr ⟨y, hopen, hnm, rfl⟩))
      · refine ⟨t, ?_⟩
        rw [List.reverse_cons]
        exact ht
    · exact ⟨r0, List.mem_append.mpr (Or.inl h), hpre⟩

/-- The frontier invariants hold for the initial frontier [[Start]]. -/
theorem queue_inv_init (kb : KB) (a : Loc) : QueueInv kb a [[a]] := by
  refine ⟨?_, by simp, ?_⟩
  · intro r hr
    simp only [List.mem_singleton] at hr
    subst hr
    exact ⟨by simp, by simp, by simp, by simp⟩
  · intro r hr h hh
    simp only [List.mem_singleton] at hr
    subst hr
    simp

/-- Every admissible path is covered by the initial frontier. -/
theorem covers_init (kb : KB) (a e : Loc) : Covers kb a e [[a]] := by
  intro P hP
  have h1 := hP.1
  cases P with
  | nil => simp at h1
  | cons x t =>
    rw [List.head?_cons, Option.some.injEq] at h1
    subst h1
    exact ⟨[x], by simp, t, by simp⟩

/-- The first solution of bfs_search on an invariant-satisfying frontier
is an admissible path of minimal length: by FIFO order the head is never
longer than any frontier element, and every admissible path keeps a
frontier prefix, so the first completed candidate is no longer than any
admissible path. -/
theorem bfs_head_minimal (kb : KB) (a e : Loc) :
    ∀ (fuel : Nat) (queue : List (List Loc)) (sols : List (List Loc)) (s : List Loc),
      QueueInv kb a queue → Covers kb a e queue →
      bfs_search fuel kb queue e = some sols → sols.head? = some s →
      AdmissiblePath kb a e s ∧ ∀ P, AdmissiblePath kb a e P → s.length ≤ P.length := by
  intro fuel
  induction fuel with
  | zero =>
    intro queue sols s _ _ hrun _
    exact absurd hrun (by simp [bfs_search])
  | succ n ih =>
    intro queue sols s hInv hCov hrun hhd
    rcases queue with _ | ⟨head, q⟩
    · have : sols = [] := by
        have h0 : (some [] : Option (List (List Loc))) = some sols := hrun ▸ rfl
        exact (Option.some.injEq _ _ ▸ h0).symm
      subst this
      simp at hhd
    · rcases head with _ | ⟨x, p⟩
      · exact absurd rfl (hInv.1 [] (by simp)).1
      · have hstep : bfs_search (n + 1) kb ((x :: p) :: q) e =
            match bfs_search n kb (q ++ bfs_exts kb x p) e with
            | none => none
            | some rest => if x = e then some ((x :: p).reverse :: rest) else some rest := rfl
        rw [hstep] at hrun
        cases hrec : bfs_search n kb (q ++ bfs_exts kb x p) e with
        | none =>
          rw [hrec] at hrun
          exact absurd hrun (by simp)
        | some rest =>
          rw [hrec] at hrun
          dsimp only at hrun
          by_cases hx : x = e
          · rw [if_pos hx] at hrun
            have hsols : sols = (x :: p).reverse :: rest := by
              exact (Option.some.injEq _ _ ▸ hrun).symm
            subst hsols
            rw [List.head?_cons, Option.some.injEq] at hhd
            subst hhd
            have hFrHead : FrontierPath kb a (x :: p) := hInv.1 _ (by simp)
            have hHeadE : (x :: p).head? = some e := by rw [List.head?_cons, hx]
            refine ⟨frontier_reverse_admissible hFrHead hHeadE, ?_⟩
            intro P hP
            obtain ⟨r0, hr0, hpre⟩ := hCov P hP
            have h1 : (x :: p).length ≤ r0.length := by
              rcases List.mem_cons.mp hr0 with rfl | h
              · exact le_refl _
              · exact (List.pairwise_cons.mp hInv.2.1).1 r0 h
            calc (x :: p).reverse.length = (x :: p).length := by rw [List.length_reverse]
              _ ≤ r0.length := h1
              _ = r0.reverse.length := by rw [List.length_reverse]
              _ ≤ P.length := hpre.length_le
          · rw [if_neg hx] at hrun
            have hsols : sols = rest := by
              exact (Option.some.injEq _ _ ▸ hrun).symm
            subst hsols
            obtain ⟨hInv2, hCov2⟩ := bfs_step_preserves kb a e x p q hInv hCov hx
            exact ih (q ++ bfs_exts kb x p) sols s hInv2 hCov2 hrec hhd

/-- C10: whenever the bfs criterion of find_path returns a path, that
path is an admissible simple open-road path from start to end, and its
edge count is minimal among all admissible simple open-road paths
between the same endpoints. -/
theorem c10_bfs_hop_minimal (fuel : Nat) (kb : KB) (a e : Loc) (p : List Loc) (d t : ℚ)
    (h : find_path_bfs fuel kb a e = some (p, d, t)) :
    AdmissiblePath kb a e p ∧
    ∀ P, AdmissiblePath kb a e P → p.length - 1 ≤ P.length - 1 := by
  unfold find_path_bfs bfs_path at h
  cases hbs : bfs_search fuel kb [[a]] e with
  | none =>
    rw [hbs] at h
    exact absurd h (by simp)
  | some sols =>
    rw [hbs] at h
    rcases sols with _ | ⟨s, rest⟩
    · exact absurd h (by simp)
    · have hps : p = s := by
        dsimp only at h
        have h2 := (Option.some.injEq _ _ ▸ h)
        exact congrArg Prod.fst h2.symm
      have hmain := bfs_head_minimal kb a e fuel [[a]] (s :: rest) s
        (queue_inv_init kb a) (covers_init kb a e) hbs (by rw [List.head?_cons])
      rw [hps]
      exact ⟨hmain.1, fun P hP => Nat.sub_le_sub_right (hmain.2 P hP) 1⟩

theorem c10_bfs_hop_minimal_witness :
    AdmissiblePath kbS1 "a" "c" ["a", "b", "c"] ∧
    ∀ P, AdmissiblePath kbS1 "a" "c" P →
      (["a", "b", "c"] : List Loc).length - 1 ≤ P.length - 1 :=
  c10_bfs_hop_minimal 4 kbS1 "a" "c" ["a", "b", "c"]
    (calculate_distance_py kbS1 ["a", "b", "c"]) (calculate_time_py kbS1 ["a", "b", "c"]) rfl
